import Mathlib

/-!
Verification of the read path of a Go client for the Solana blockstore
(package `blockstore` with its `shred` sub-package) against its
natural-language specification.  The Go functions are shallowly embedded as
executable Lean functions over `Nat` (machine integers are modelled as `Nat`
with explicit reductions modulo `2 ^ 32` and `2 ^ 64` where the Go code
truncates or wraps), byte strings as `List Nat`, and the RocksDB column
families as association lists.  Fallible Go functions return a `Res` value;
a Go runtime crash (nil-pointer dereference, out-of-range slice access) is
modelled by the distinguished outcome `Res.crash`.
-/

/-- Width constant: `2 ^ 32`, the modulus of Go `uint32` arithmetic. -/
def U32MOD : Nat := 2 ^ 32

/-- Width constant: `2 ^ 64`, the modulus of Go `uint64` arithmetic. -/
def U64MOD : Nat := 2 ^ 64

/-- `math.MaxUint64`, the sentinel used by `SlotMeta.LastIndex` and
`SlotMeta.ParentSlot` for a missing value. -/
def U64MAX : Nat := U64MOD - 1

/-- Little-endian interpretation of a byte list (least significant byte
first), as done by `binary.LittleEndian` in the Go code. -/
def leNat : List Nat → Nat
  | [] => 0
  | b :: rest => b + 256 * leNat rest

/-- Little-endian encoding of `v` on `n` bytes (used to build concrete
shred payloads for test stores). -/
def leBytesN : Nat → Nat → List Nat
  | 0, _ => []
  | n + 1, v => (v % 256) :: leBytesN n (v / 256)

/-- Go `uint64` subtraction `a - b` (wrapping modulo `2 ^ 64`). -/
def u64sub (a b : Nat) : Nat :=
  (a % U64MOD + (U64MOD - b % U64MOD)) % U64MOD

/-- Point lookup in an association list, modelling a RocksDB `GetCF` on a
column family keyed by slot. -/
def tableGet {α : Type} (key : Nat) : List (Nat × α) → Option α
  | [] => none
  | (k, v) :: rest => if key = k then some v else tableGet key rest

/-! ## Shred codec (`shred` package)

The variant dispatch `NewShredFromSerialized` and the constants are
translated from the source.  The per-variant header and payload accessors
(`LegacyDataFromPayload` and friends) are absent from the sources at hand;
they are modelled from the spec (wire layout of section 6): common header at
offsets 0..83, data header at 83..88, payload `[88 .. size)`. -/

/-- Shred variant discriminants (source constants). -/
def LegacyCodeID : Nat := 0x5A

def LegacyDataID : Nat := 0xA5

def MerkleMask : Nat := 0xF0

def MerkleCodeID : Nat := 0x40

def MerkleDataID : Nat := 0x80

/-- Data-shred flag bits (source constants). -/
def FlagShredTickReferenceMask : Nat := 0x3F

def FlagDataCompleteShred : Nat := 0x40

def FlagLastShredInSlot : Nat := 0xC0

/-- Common shred header (source struct `CommonHeader`). -/
structure CommonHeader where
  signature : List Nat
  variant : Nat
  slot : Nat
  index : Nat
  version : Nat
  fecSetIndex : Nat
deriving DecidableEq

/-- Data shred header (source struct `DataHeader`). -/
structure DataHeader where
  parentOffset : Nat
  flags : Nat
  size : Nat
deriving DecidableEq

/-- Source method `DataHeader.LastInSlot`:
`d.Flags & FlagLastShredInSlot != 0`. -/
def DataHeader.LastInSlot (d : DataHeader) : Bool :=
  d.flags &&& FlagLastShredInSlot != 0

/-- Modelled from the spec: common-header extraction at the wire offsets of
section 6 (the concrete Go implementations of the shred constructors are not
among the sources at hand). -/
def parseCommonHeader (b : List Nat) : CommonHeader where
  signature := b.take 64
  variant := b.getD 64 0
  slot := leNat ((b.drop 65).take 8)
  index := leNat ((b.drop 73).take 4)
  version := leNat ((b.drop 77).take 2)
  fecSetIndex := leNat ((b.drop 79).take 4)

/-- Modelled from the spec: data-header extraction at the wire offsets of
section 6. -/
def parseDataHeader (b : List Nat) : DataHeader where
  parentOffset := leNat ((b.drop 83).take 2)
  flags := b.getD 85 0
  size := leNat ((b.drop 86).take 2)

/-- Modelled from the spec: `data()` returns the slice `[88 .. size)`; if
`size` exceeds the shred length or is below the payload start (88) the shred
has invalid framing and `none` is returned. -/
def shredPayloadData (b : List Nat) : Option (List Nat) :=
  let size := (parseDataHeader b).size
  if size < 88 || b.length < size then none
  else some ((b.take size).drop 88)

/-- A parsed shred: one of the four variants, each holding the raw payload
(source interface `Shred` with its four implementations). -/
inductive Shred where
  | legacyCode (payload : List Nat)
  | legacyData (payload : List Nat)
  | merkleCode (payload : List Nat)
  | merkleData (payload : List Nat)
deriving DecidableEq

/-- The raw bytes a shred was parsed from. -/
def Shred.payload : Shred → List Nat
  | .legacyCode b => b
  | .legacyData b => b
  | .merkleCode b => b
  | .merkleData b => b

/-- Whether the variant is a data shred. -/
def Shred.isData : Shred → Bool
  | .legacyData _ => true
  | .merkleData _ => true
  | _ => false

/-- Interface method `CommonHeader()` (layout shared by all variants). -/
def Shred.commonHeader (s : Shred) : CommonHeader :=
  parseCommonHeader s.payload

/-- Interface method `DataHeader()`: data shreds expose their data header,
coding shreds return a nil pointer (modelled as `none`). -/
def Shred.dataHeaderOpt : Shred → Option DataHeader
  | .legacyData b => some (parseDataHeader b)
  | .merkleData b => some (parseDataHeader b)
  | _ => none

/-- Interface method `Data()`: payload slice for data shreds (or `none` on
invalid framing); coding shreds return `none`. -/
def Shred.data : Shred → Option (List Nat)
  | .legacyData b => shredPayloadData b
  | .merkleData b => shredPayloadData b
  | _ => none

/-- Interface method `DataComplete()`:
`flags & FlagDataCompleteShred != 0` for data shreds, `false` for coding
shreds (spec section 4.1). -/
def Shred.dataComplete : Shred → Bool
  | .legacyData b => (parseDataHeader b).flags &&& FlagDataCompleteShred != 0
  | .merkleData b => (parseDataHeader b).flags &&& FlagDataCompleteShred != 0
  | _ => false

/-- Source function `NewShredFromSerialized`: length guard and variant
dispatch on byte 64. -/
def NewShredFromSerialized (b : List Nat) : Option Shred :=
  if b.length < 65 then none
  else if b.getD 64 0 = LegacyCodeID then some (.legacyCode b)
  else if b.getD 64 0 = LegacyDataID then some (.legacyData b)
  else if b.getD 64 0 &&& MerkleMask = MerkleCodeID then some (.merkleCode b)
  else if b.getD 64 0 &&& MerkleMask = MerkleDataID then some (.merkleData b)
  else none

/-! ## Error and result model -/

/-- The recoverable error values surfaced by the client.  Distinct Go error
values get distinct constructors: `invalidShredData` is the sentinel
`ErrInvalidShredData`, `shredDeserializeFailed` the ad-hoc
`failed to deserialize shred` error, `invalidDataShred` the ad-hoc
`invalid data shred` error inside `Deshred`, and `entryDecodeFailed` a
bincode decoding failure of the entry vector. -/
inductive BErr where
  | notFound
  | deadSlot
  | invalidShredData
  | shredDeserializeFailed
  | tooFewDataShreds
  | invalidDataShred
  | entryDecodeFailed
deriving DecidableEq

/-- Outcome of a fallible Go call: a value, a returned error, or a runtime
crash (nil-pointer dereference / slice bounds violation). -/
inductive Res (α : Type) where
  | ok (val : α)
  | fail (e : BErr)
  | crash
deriving DecidableEq

/-! ## Deshredder (`shred.Deshred`) -/

/-- The contiguity loop of `Deshred`: every shred at position `i` must have
common-header index `base + uint32(i)` (Go `uint32` addition wraps). -/
def alignedFrom (base : Nat) : Nat → List Shred → Bool
  | _, [] => true
  | i, s :: rest =>
    (s.commonHeader.index == (base + i) % U32MOD) && alignedFrom base (i + 1) rest

/-- The completeness test of `Deshred` on the last shred:
`lastShred.DataComplete() || lastShred.DataHeader().LastInSlot()`.
The disjunction short-circuits, so a coding shred whose `DataComplete()` is
`false` dereferences the nil data header: outcome `none` (crash). -/
def deshredLastFlag (s : Shred) : Option Bool :=
  if s.dataComplete then some true
  else
    match s.dataHeaderOpt with
    | none => none
    | some dh => some dh.LastInSlot

/-- The payload-concatenation loop of `Deshred`: the first shred whose
`Data()` is invalid aborts with the `invalid data shred` error. -/
def dataConcatRes : List Shred → Res (List Nat)
  | [] => .ok []
  | s :: rest =>
    match s.data with
    | none => .fail .invalidDataShred
    | some d =>
      match dataConcatRes rest with
      | .ok ds => .ok (d ++ ds)
      | other => other

/-- Whether every shred in the sequence has a valid `Data()` slice. -/
def dataValid (shreds : List Shred) : Bool :=
  shreds.all (fun s => s.data.isSome)

/-- In-order concatenation of the payload slices of a shred sequence. -/
def dataConcat : List Shred → List Nat
  | [] => []
  | s :: rest => s.data.getD [] ++ dataConcat rest

/-- The contiguity condition of `Deshred`, as a standalone predicate. -/
def contiguousIndexes (shreds : List Shred) : Bool :=
  match shreds with
  | [] => true
  | s0 :: rest => alignedFrom s0.commonHeader.index 0 (s0 :: rest)

/-- The completeness condition of `Deshred` on the last shred, as a
standalone predicate (for data shreds the crash case cannot occur). -/
def lastShredFlagged (shreds : List Shred) : Bool :=
  match shreds with
  | [] => false
  | s0 :: rest => (deshredLastFlag (rest.getLastD s0)).getD false

/-- The body of `Deshred` for a non-empty shred sequence: completeness
check on the last shred, contiguity check, then payload concatenation. -/
def deshredCons (s0 : Shred) (rest : List Shred) : Res (List Nat) :=
  match deshredLastFlag (rest.getLastD s0) with
  | none => .crash
  | some dataComplete =>
    if !dataComplete || !(alignedFrom s0.commonHeader.index 0 (s0 :: rest)) then
      .fail .tooFewDataShreds
    else dataConcatRes (s0 :: rest)

/-- Source function `Deshred`: empty guard, contiguity check, completeness
check on the last shred, then payload concatenation. -/
def Deshred (shreds : List Shred) : Res (List Nat) :=
  match shreds with
  | [] => .fail .tooFewDataShreds
  | s0 :: rest => deshredCons s0 rest

/-! ## Slot meta model -/

/-- Source struct `SlotMeta` (the `NumNextSlots` and
`NumCompletedDataIndexes` length prefixes are implicit in the list
lengths). -/
structure SlotMeta where
  slot : Nat
  consumed : Nat
  received : Nat
  firstShredTimestamp : Nat
  lastIndex : Nat
  parentSlot : Nat
  nextSlots : List Nat
  isConnected : Bool
  completedDataIndexes : List Nat
deriving DecidableEq

/-- Source method `SlotMeta.IsFull`: `last_index` of `math.MaxUint64` means
unknown; otherwise full iff `consumed == last_index + 1`. -/
def SlotMeta.IsFull (m : SlotMeta) : Bool :=
  if m.lastIndex = U64MAX then false
  else m.consumed == m.lastIndex + 1

/-- Source struct `CompletedRange` (inclusive index pair). -/
structure CompletedRange where
  startIndex : Nat
  endIndex : Nat
deriving DecidableEq

/-- Source function `sliceSortedByRange`: drop leading elements `< start`
and trailing elements `≥ stop` (two loops over the ends of the slice). -/
def sliceSortedByRange (list : List Nat) (start stop : Nat) : List Nat :=
  (((list.dropWhile fun x => x < start).reverse.dropWhile fun x => stop ≤ x).reverse)

/-- The emission loop of `getCompletedDataRanges`: `begin` is a `uint32`
that is incremented (wrapping) once per emitted range. -/
def completedRangesGo (begin_ : Nat) : List Nat → List CompletedRange
  | [] => []
  | idx :: rest => ⟨begin_, idx⟩ :: completedRangesGo ((begin_ + 1) % U32MOD) rest

/-- Source function `getCompletedDataRanges` (all arguments `uint32`). -/
def getCompletedDataRanges (startIndex : Nat) (completedDataIndexes : List Nat)
    (consumed : Nat) : List CompletedRange :=
  completedRangesGo startIndex (sliceSortedByRange completedDataIndexes startIndex consumed)

/-- Modelled from the spec: section 4.3 evaluated over the untruncated
`u64` values of the `SlotMeta` model (for comparison with the source
function, which receives `uint32` truncations). -/
def getCompletedDataRanges64 (startIndex : Nat) (completedDataIndexes : List Nat)
    (consumed : Nat) : List (Nat × Nat) :=
  (sliceSortedByRange completedDataIndexes startIndex consumed).enum.map
    (fun p => (startIndex + p.1, p.2))

/-! ## Entries, blocks, store -/

/-- Transactions are opaque to the core (their binary layout is delegated to
an external codec); they are carried around as raw tokens. -/
abbrev Transaction := List Nat

/-- Source struct `Entry` (the `NumTxns` length prefix is implicit). -/
structure Entry where
  numHashes : Nat
  hash : List Nat
  transactions : List Transaction
deriving DecidableEq

/-- Source struct `Block`. -/
structure Block where
  blockHash : List Nat
  parentSlot : Nat
  transactions : List Transaction
deriving DecidableEq

/-- Modelled from the spec: the external length-prefixed bincode decoder for
`{count: u64, entries: Entry[count]}` is out of scope (section 1), so the
read path is parameterized over it; `none` is a decoding error. -/
def EntryDecoder : Type := List Nat → Option (List Entry)

/-- The blockstore columns the claims touch, as association lists.  RocksDB
iterates keys in ascending order, so a well-formed store keeps each column
sorted by key; point lookups do not depend on this. -/
structure Store where
  meta : List (Nat × SlotMeta)
  deadSlots : List (Nat × List Nat)
  blockHeight : List (Nat × List Nat)
  dataShred : List ((Nat × Nat) × List Nat)

/-- Source method `GetSlotMeta` (point get over `meta`; `none` models the
`ErrNotFound` result, with a nil `*SlotMeta`). -/
def GetSlotMeta (st : Store) (slot : Nat) : Option SlotMeta :=
  tableGet slot st.meta

/-- Source method `IsSlotDead`: the value must exist and equal the single
byte `0x01`. -/
def IsSlotDead (st : Store) (slot : Nat) : Bool :=
  match tableGet slot st.deadSlots with
  | none => false
  | some v => v == [1]

/-- Source method `GetBlockHeight`: seek-to-last on `block_height`, then
`binary.LittleEndian.Uint64` of the value slice (which crashes when the
value is shorter than 8 bytes). -/
def GetBlockHeight (st : Store) : Res Nat :=
  match st.blockHeight.getLast? with
  | none => .fail .notFound
  | some (_, v) => if v.length < 8 then .crash else .ok (leNat (v.take 8))

/-- Byte-lexicographic order of 16-byte shred keys
`bigEndian(slot) || bigEndian(index)`, as pairs. -/
def shredKeyLE (a b : Nat × Nat) : Bool :=
  Nat.blt a.1 b.1 || (a.1 == b.1 && Nat.ble a.2 b.2)

/-- RocksDB `Iterator.Seek` on the data-shred column of a key-sorted store:
position on the first entry whose key is `≥` the target. -/
def seekGE (col : List ((Nat × Nat) × List Nat)) (k : Nat × Nat) :
    Option ((Nat × Nat) × List Nat) :=
  col.find? (fun e => shredKeyLE k e.1)

/-- The collection loop of `GetEntriesInDataBlock`, for `fuel` iterations
starting at expected index `i`.  The source never advances the iterator, so
the position `pos` (the seek result) is the same at every step; at each step
the iterator must be valid and its key index must equal `i`, else
`ErrInvalidShredData`, and the value must deserialize, else the
`failed to deserialize shred` error. -/
def collectShreds (pos : Option ((Nat × Nat) × List Nat)) :
    Nat → Nat → Res (List Shred)
  | _, 0 => .ok []
  | i, fuel + 1 =>
    match pos with
    | none => .fail .invalidShredData
    | some ((_, index), value) =>
      if index != i then .fail .invalidShredData
      else
        match NewShredFromSerialized value with
        | none => .fail .shredDeserializeFailed
        | some s =>
          match collectShreds pos (i + 1) fuel with
          | .ok rest => .ok (s :: rest)
          | other => other

/-- Source method `GetEntriesInDataBlock`: seek to `(slot, startIndex)`,
walk the inclusive index range, deshred, decode the entry vector. -/
def GetEntriesInDataBlock (dec : EntryDecoder) (st : Store) (slot : Nat)
    (startIndex endIndex : Nat) : Res (List Entry) :=
  match collectShreds (seekGE st.dataShred (slot, startIndex)) startIndex
      (endIndex + 1 - startIndex) with
  | .fail e => .fail e
  | .crash => .crash
  | .ok shreds =>
    match Deshred shreds with
    | .fail e => .fail e
    | .crash => .crash
    | .ok payload =>
      match dec payload with
      | none => .fail .entryDecodeFailed
      | some entries => .ok entries

/-- Source method `getCompletedRanges`: a missing slot meta is treated as an
empty range list (passing the nil meta pointer through); otherwise the range
computation receives the `uint32` truncations of `startIndex` and
`meta.Consumed`. -/
def getCompletedRanges (st : Store) (slot startIndex : Nat) :
    List CompletedRange × Option SlotMeta :=
  match GetSlotMeta st slot with
  | none => ([], none)
  | some meta =>
    (getCompletedDataRanges (startIndex % U32MOD) meta.completedDataIndexes
      (meta.consumed % U32MOD), some meta)

/-- The per-range loop of `GetSlotEntries`, concatenating the entries of
each completed range and aborting on the first failure. -/
def entriesLoop (dec : EntryDecoder) (st : Store) (slot : Nat) :
    List CompletedRange → Res (List Entry)
  | [] => .ok []
  | r :: rest =>
    match GetEntriesInDataBlock dec st slot r.startIndex r.endIndex with
    | .fail e => .fail e
    | .crash => .crash
    | .ok sub =>
      match entriesLoop dec st slot rest with
      | .ok more => .ok (sub ++ more)
      | other => other

/-- The shred count reported by `GetSlotEntries`:
`uint64(lastRange.EndIndex) - startIndex + 1` in wrapping `uint64`
arithmetic when there is at least one completed range, else 0. -/
def numShredsOf (ranges : List CompletedRange) (startIndex : Nat) : Nat :=
  match ranges.getLast? with
  | some r => (u64sub r.endIndex startIndex + 1) % U64MOD
  | none => 0

/-- Source method `GetSlotEntries`.  Note two properties of the source,
preserved here: the dead-slot check runs only when `allowDeadSlots` is
`true`, and the final `slotMeta.IsFull()` dereferences the slot meta
pointer, which is nil when the slot has no meta record (outcome
`Res.crash`). -/
def GetSlotEntries (dec : EntryDecoder) (st : Store) (slot startIndex : Nat)
    (allowDeadSlots : Bool) : Res (List Entry × Nat × Bool) :=
  if allowDeadSlots && IsSlotDead st slot then .fail .deadSlot
  else
    match entriesLoop dec st slot (getCompletedRanges st slot startIndex).1 with
    | .fail e => .fail e
    | .crash => .crash
    | .ok entries =>
      match (getCompletedRanges st slot startIndex).2 with
      | none => .crash
      | some m =>
        .ok (entries, numShredsOf (getCompletedRanges st slot startIndex).1 startIndex,
          m.IsFull)

/-- In-order concatenation of the transactions of an entry list. -/
def entryTransactions : List Entry → List Transaction
  | [] => []
  | e :: rest => e.transactions ++ entryTransactions rest

/-- Source method `GetBlock`: require a full slot meta, fetch the slot
entries from index 0 without allowing dead slots, require a non-empty entry
list, and assemble the block. -/
def GetBlock (dec : EntryDecoder) (st : Store) (slot : Nat) : Res Block :=
  match GetSlotMeta st slot with
  | none => .fail .notFound
  | some meta =>
    if !meta.IsFull then .fail .notFound
    else
      match GetSlotEntries dec st slot 0 false with
      | .fail e => .fail e
      | .crash => .crash
      | .ok (entries, _, _) =>
        match entries.getLast? with
        | none => .fail .notFound
        | some lastEntry =>
          .ok { blockHash := lastEntry.hash
                parentSlot := meta.parentSlot
                transactions := entryTransactions entries }

/-! ## Concrete test fixtures -/

/-- A well-formed legacy data shred payload: 64-byte zero signature,
variant `0xA5`, headers at the spec offsets, `size = 88 + body length`. -/
def mkDataShredBytes (slot index flags : Nat) (body : List Nat) : List Nat :=
  List.replicate 64 0 ++ [0xA5] ++ leBytesN 8 slot ++ leBytesN 4 index ++
    leBytesN 2 0 ++ leBytesN 4 0 ++ leBytesN 2 0 ++ [flags] ++
    leBytesN 2 (88 + body.length) ++ body

/-- The slot meta of the section 8 block scenario:
`consumed = 4`, `last_index = 3`, `completed_data_indexes = [3]`. -/
def scn8Meta : SlotMeta where
  slot := 10
  consumed := 4
  received := 4
  firstShredTimestamp := 0
  lastIndex := 3
  parentSlot := 9
  nextSlots := []
  isConnected := true
  completedDataIndexes := [3]

/-- The store of the section 8 block scenario: a full slot 10 with data
shreds at indexes 0..3, the last one flagged `LastShredInSlot`. -/
def scn8Store : Store where
  meta := [(10, scn8Meta)]
  deadSlots := []
  blockHeight := []
  dataShred :=
    [ ((10, 0), mkDataShredBytes 10 0 0 [1, 2]),
      ((10, 1), mkDataShredBytes 10 1 0 [3, 4]),
      ((10, 2), mkDataShredBytes 10 2 0 [5, 6]),
      ((10, 3), mkDataShredBytes 10 3 0xC0 [7, 8]) ]


/-- An entirely empty store. -/
def emptyStore : Store where
  meta := []
  deadSlots := []
  blockHeight := []
  dataShred := []

/-! ## Claim C1 -/

/-- Claim C1: refuted by the code.  In the section 8 scenario (slot meta
full with `consumed = 4`, `last_index = 3`, `completed_data_indexes = [3]`,
data shreds present and parseable at indexes 0..3), `GetBlock` does not
return the reconstructed block: the single completed range is `(0, 3)`, and
because `GetEntriesInDataBlock` never advances the iterator after the
initial seek, the walk still sees index 0 when it expects index 1 and fails
with `ErrInvalidShredData` — whatever the entry decoder is. -/
theorem c1_getblock_scn8_fails_invalid_shred_data (dec : EntryDecoder) :
    GetBlock dec scn8Store 10 = .fail .invalidShredData := rfl

/-- Witness for C1 at a concrete entry decoder. -/
theorem c1_getblock_scn8_fails_invalid_shred_data_witness :
    GetBlock (fun _ => none) scn8Store 10 = .fail .invalidShredData :=
  c1_getblock_scn8_fails_invalid_shred_data (fun _ => none)

/-! ## Claim C3 -/

/-- Claim C3: refuted by the code.  When the slot has no meta record,
`getCompletedRanges` passes the nil slot-meta pointer through, and
`GetSlotEntries` crashes dereferencing it in the final `slotMeta.IsFull()`
instead of returning an empty entry list. -/
theorem c3_get_slot_entries_missing_meta_crashes (dec : EntryDecoder)
    (st : Store) (slot startIndex : Nat) (h : GetSlotMeta st slot = none) :
    GetSlotEntries dec st slot startIndex false = .crash := by
  simp [GetSlotEntries, getCompletedRanges, h, entriesLoop]

/-- Witness for C3: the empty store has no meta record for slot 5. -/
theorem c3_get_slot_entries_missing_meta_crashes_witness :
    GetSlotMeta emptyStore 5 = none ∧
      GetSlotEntries (fun _ => none) emptyStore 5 0 false = .crash :=
  ⟨rfl, c3_get_slot_entries_missing_meta_crashes (fun _ => none) emptyStore 5 0 rfl⟩

/-! ## Claim C4 -/

/-- Claim C4: refuted by the code.  `DataHeader.LastInSlot` tests
`flags & 0xC0 != 0` (any of the two bits), not `flags & 0xC0 == 0xC0`:
a header with flags `0x40` (DataCompleteShred only) already reports
`LastInSlot`, and a header with flags `0x80` reports `LastInSlot` while
`data_complete` is false, violating the claimed implication. -/
theorem c4_last_in_slot_tests_any_bit :
    DataHeader.LastInSlot ⟨0, 0x40, 88⟩ = true ∧ ¬(0x40 &&& 0xC0 = 0xC0) ∧
      DataHeader.LastInSlot ⟨0, 0x80, 88⟩ = true ∧
      Shred.dataComplete (.legacyData (mkDataShredBytes 1 0 0x80 [])) = false ∧
      (Shred.dataHeaderOpt
          (.legacyData (mkDataShredBytes 1 0 0x80 []))).map DataHeader.LastInSlot
        = some true := by
  decide

/-! ## Claim C2 -/

/-- The payload-concatenation loop never produces the dead-slot error. -/
theorem dataConcatRes_ne_deadSlot :
    ∀ shreds, dataConcatRes shreds ≠ .fail .deadSlot := by
  intro shreds
  induction shreds with
  | nil => simp [dataConcatRes]
  | cons s rest ih =>
    unfold dataConcatRes
    split
    · simp
    · split
      · simp
      · intro hcontra
        exact ih hcontra

/-- `Deshred` never produces the dead-slot error. -/
theorem Deshred_ne_deadSlot : ∀ shreds, Deshred shreds ≠ .fail .deadSlot := by
  intro shreds
  cases shreds with
  | nil => simp [Deshred]
  | cons s0 rest =>
    show deshredCons s0 rest ≠ .fail .deadSlot
    unfold deshredCons
    split
    · simp
    · split
      · simp
      · exact dataConcatRes_ne_deadSlot _

/-- The iterator-walk loop never produces the dead-slot error. -/
theorem collectShreds_ne_deadSlot (pos : Option ((Nat × Nat) × List Nat)) :
    ∀ fuel i, collectShreds pos i fuel ≠ .fail .deadSlot := by
  intro fuel
  induction fuel with
  | zero => intro i; simp [collectShreds]
  | succ n ih =>
    intro i
    unfold collectShreds
    split
    · simp
    · split
      · simp
      · split
        · simp
        · split
          · simp
          · intro hcontra
            exact ih (i + 1) hcontra

/-- `GetEntriesInDataBlock` never produces the dead-slot error. -/
theorem GetEntriesInDataBlock_ne_deadSlot (dec : EntryDecoder) (st : Store)
    (slot startIndex endIndex : Nat) :
    GetEntriesInDataBlock dec st slot startIndex endIndex ≠ .fail .deadSlot := by
  unfold GetEntriesInDataBlock
  split
  · next e heq =>
    intro hcontra
    injection hcontra with h
    subst h
    exact collectShreds_ne_deadSlot (seekGE st.dataShred (slot, startIndex))
      (endIndex + 1 - startIndex) startIndex heq
  · simp
  · split
    · next e heq =>
      intro hcontra
      injection hcontra with h
      subst h
      exact Deshred_ne_deadSlot _ heq
    · simp
    · split
      · simp
      · simp

/-- The per-range loop never produces the dead-slot error. -/
theorem entriesLoop_ne_deadSlot (dec : EntryDecoder) (st : Store) (slot : Nat) :
    ∀ ranges, entriesLoop dec st slot ranges ≠ .fail .deadSlot := by
  intro ranges
  induction ranges with
  | nil => simp [entriesLoop]
  | cons r rest ih =>
    unfold entriesLoop
    split
    · next e heq =>
      intro hcontra
      injection hcontra with h
      subst h
      exact GetEntriesInDataBlock_ne_deadSlot dec st slot r.startIndex r.endIndex heq
    · simp
    · split
      · simp
      · intro hcontra
        exact ih hcontra

/-- Claim C2: refuted by the code.  The dead-slot check of `GetSlotEntries`
runs only when the caller sets `allowDeadSlots`; with
`allowDeadSlots = false` the call can never fail with `ErrDeadSlot`, and
with `allowDeadSlots = true` a dead slot always fails with `ErrDeadSlot` —
the exact inverse of the claim. -/
theorem c2_dead_slot_check_inverted (dec : EntryDecoder) (st : Store)
    (slot startIndex : Nat) :
    GetSlotEntries dec st slot startIndex false ≠ .fail .deadSlot ∧
      (IsSlotDead st slot = true →
        GetSlotEntries dec st slot startIndex true = .fail .deadSlot) := by
  constructor
  · unfold GetSlotEntries
    simp only [Bool.false_and, Bool.false_eq_true, if_false]
    split
    · next e heq =>
      intro hcontra
      injection hcontra with h
      subst h
      exact entriesLoop_ne_deadSlot dec st slot (getCompletedRanges st slot startIndex).1 heq
    · simp
    · split
      · simp
      · simp
  · intro hd
    unfold GetSlotEntries
    simp [hd]

/-- A slot meta with nothing completed (used as a neutral meta record). -/
def plainMeta : SlotMeta where
  slot := 7
  consumed := 0
  received := 0
  firstShredTimestamp := 0
  lastIndex := U64MAX
  parentSlot := 6
  nextSlots := []
  isConnected := false
  completedDataIndexes := []

/-- A store where slot 7 has a meta record and is marked dead. -/
def deadStore : Store where
  meta := [(7, plainMeta)]
  deadSlots := [(7, [1])]
  blockHeight := []
  dataShred := []

/-- Witness for C2: slot 7 of `deadStore` is dead, yet the call with
`allowDeadSlots = false` does not fail `ErrDeadSlot` (it succeeds) and the
call with `allowDeadSlots = true` does. -/
theorem c2_dead_slot_check_inverted_witness :
    IsSlotDead deadStore 7 = true ∧
      GetSlotEntries (fun _ => none) deadStore 7 0 false ≠ .fail .deadSlot ∧
      GetSlotEntries (fun _ => none) deadStore 7 0 true = .fail .deadSlot :=
  ⟨rfl, (c2_dead_slot_check_inverted (fun _ => none) deadStore 7 0).1,
    (c2_dead_slot_check_inverted (fun _ => none) deadStore 7 0).2 rfl⟩

/-! ## Claim C7 -/

/-- Claim C7: confirmed.  `SlotMeta.IsFull` holds exactly when `last_index`
is not the `u64::MAX` sentinel and `consumed = last_index + 1`; and when the
slot meta exists but is not full, `GetBlock` fails `ErrNotFound` (no block
value is constructed). -/
theorem c7_is_full_iff_and_getblock_notfound :
    (∀ m : SlotMeta,
      m.IsFull = true ↔ m.lastIndex ≠ U64MAX ∧ m.consumed = m.lastIndex + 1) ∧
      (∀ (dec : EntryDecoder) (st : Store) (slot : Nat) (m : SlotMeta),
        GetSlotMeta st slot = some m → m.IsFull = false →
        GetBlock dec st slot = .fail .notFound) := by
  constructor
  · intro m
    unfold SlotMeta.IsFull
    split
    · next h => simp [h]
    · next h => simp [h]
  · intro dec st slot m hm hfull
    unfold GetBlock
    rw [hm]
    simp [hfull]

/-- Witness for C7: `plainMeta` (unknown `last_index`) is not full, and in
`deadStore` slot 7 carries it, so `GetBlock` fails `ErrNotFound`. -/
theorem c7_is_full_iff_and_getblock_notfound_witness :
    (plainMeta.IsFull = true ↔
      plainMeta.lastIndex ≠ U64MAX ∧ plainMeta.consumed = plainMeta.lastIndex + 1) ∧
      GetBlock (fun _ => none) deadStore 7 = .fail .notFound :=
  ⟨c7_is_full_iff_and_getblock_notfound.1 plainMeta,
    c7_is_full_iff_and_getblock_notfound.2 (fun _ => none) deadStore 7 plainMeta rfl rfl⟩

/-! ## Claim C9 -/

/-- Claim C9: confirmed.  `GetBlockHeight` seeks to the last entry of the
`block_height` column (the greatest key of the key-sorted column) and
decodes its value slice as a little-endian `u64`; an empty column fails
`ErrNotFound`. -/
theorem c9_get_block_height :
    (∀ st : Store, st.blockHeight = [] → GetBlockHeight st = .fail .notFound) ∧
      (∀ (st : Store) (pre : List (Nat × List Nat)) (k : Nat) (v : List Nat),
        st.blockHeight = pre ++ [(k, v)] → 8 ≤ v.length →
        GetBlockHeight st = .ok (leNat (v.take 8))) := by
  constructor
  · intro st h
    unfold GetBlockHeight
    rw [h]
    rfl
  · intro st pre k v h hlen
    unfold GetBlockHeight
    rw [h, List.getLast?_concat]
    simp only
    rw [if_neg (by omega)]

/-- A store whose `block_height` column holds one entry with value bytes
`64 00 00 00 00 00 00 00`. -/
def heightStore : Store where
  meta := []
  deadSlots := []
  blockHeight := [(42, [0x64, 0, 0, 0, 0, 0, 0, 0])]
  dataShred := []

/-- Witness for C9: the single-entry column decodes to 100; the empty
column fails `ErrNotFound`. -/
theorem c9_get_block_height_witness :
    GetBlockHeight heightStore = .ok 100 ∧
      GetBlockHeight emptyStore = .fail .notFound :=
  ⟨by
    have := c9_get_block_height.2 heightStore [] 42 [0x64, 0, 0, 0, 0, 0, 0, 0]
      rfl (by decide)
    simpa using this,
    c9_get_block_height.1 emptyStore rfl⟩

/-! ## Claim C10 -/

/-- A slot meta whose `consumed` does not fit in 32 bits. -/
def hugeMeta : SlotMeta where
  slot := 3
  consumed := 2 ^ 32
  received := 2 ^ 32
  firstShredTimestamp := 0
  lastIndex := 2 ^ 32 - 1
  parentSlot := 2
  nextSlots := []
  isConnected := true
  completedDataIndexes := [3]

/-- A store carrying `hugeMeta` for slot 3. -/
def hugeStore : Store where
  meta := [(3, hugeMeta)]
  deadSlots := []
  blockHeight := []
  dataShred := []

/-- Claim C10: confirmed.  The range computation of `GetSlotEntries`
receives the `uint32` truncations of `start_index` and `meta.Consumed`
(source casts `uint32(startIndex)` and `uint32(meta.Consumed)`), and the
truncation is observable: with `consumed = 2 ^ 32` the truncated bound 0
trims everything away, while the untruncated spec-level computation keeps
the range `(0, 3)`. -/
theorem c10_completed_ranges_truncate_to_u32 :
    (∀ (st : Store) (slot startIndex : Nat) (m : SlotMeta),
      GetSlotMeta st slot = some m →
      getCompletedRanges st slot startIndex =
        (getCompletedDataRanges (startIndex % U32MOD) m.completedDataIndexes
          (m.consumed % U32MOD), some m)) ∧
      getCompletedDataRanges (0 % U32MOD) [3] (2 ^ 32 % U32MOD) = [] ∧
      getCompletedDataRanges64 0 [3] (2 ^ 32) = [(0, 3)] := by
  refine ⟨?_, by rfl, by rfl⟩
  intro st slot startIndex m hm
  unfold getCompletedRanges
  rw [hm]

/-- Witness for C10: on `hugeStore` the truncated call returns no ranges
although index 3 is below the untruncated `consumed`. -/
theorem c10_completed_ranges_truncate_to_u32_witness :
    getCompletedRanges hugeStore 3 0 =
      (getCompletedDataRanges (0 % U32MOD) hugeMeta.completedDataIndexes
        (hugeMeta.consumed % U32MOD), some hugeMeta) :=
  c10_completed_ranges_truncate_to_u32.1 hugeStore 3 0 hugeMeta rfl

/-! ## Claim C8 -/

/-- Claim C8: confirmed.  `NewShredFromSerialized` rejects payloads shorter
than 65 bytes, and on longer payloads dispatches on byte 64: `0x5A` is
LegacyCode, `0xA5` is LegacyData, high nibble `0x4` is MerkleCode, high
nibble `0x8` is MerkleData, anything else is rejected. -/
theorem c8_parse_variant_dispatch (b : List Nat) :
    (b.length < 65 → NewShredFromSerialized b = none) ∧
      (65 ≤ b.length →
        ((NewShredFromSerialized b = some (.legacyCode b) ↔ b.getD 64 0 = 0x5A) ∧
          (NewShredFromSerialized b = some (.legacyData b) ↔ b.getD 64 0 = 0xA5) ∧
          (NewShredFromSerialized b = some (.merkleCode b) ↔
            b.getD 64 0 &&& 0xF0 = 0x40) ∧
          (NewShredFromSerialized b = some (.merkleData b) ↔
            b.getD 64 0 &&& 0xF0 = 0x80) ∧
          (NewShredFromSerialized b = none ↔
            b.getD 64 0 ≠ 0x5A ∧ b.getD 64 0 ≠ 0xA5 ∧
              b.getD 64 0 &&& 0xF0 ≠ 0x40 ∧ b.getD 64 0 &&& 0xF0 ≠ 0x80))) := by
  constructor
  · intro h
    unfold NewShredFromSerialized
    rw [if_pos h]
  · intro hlen
    unfold NewShredFromSerialized
    rw [if_neg (by omega)]
    simp only [LegacyCodeID, LegacyDataID, MerkleMask, MerkleCodeID, MerkleDataID]
    by_cases h1 : b.getD 64 0 = 0x5A
    · rw [if_pos h1]
      refine ⟨⟨fun _ => h1, fun _ => rfl⟩, ?_, ?_, ?_, ?_⟩
      · constructor
        · intro hh; simp at hh
        · intro hh; omega
      · constructor
        · intro hh; simp at hh
        · intro hh; rw [h1] at hh; exact absurd hh (by decide)
      · constructor
        · intro hh; simp at hh
        · intro hh; rw [h1] at hh; exact absurd hh (by decide)
      · constructor
        · intro hh; simp at hh
        · intro hh; exact absurd h1 hh.1
    · rw [if_neg h1]
      by_cases h2 : b.getD 64 0 = 0xA5
      · rw [if_pos h2]
        refine ⟨?_, ⟨fun _ => h2, fun _ => rfl⟩, ?_, ?_, ?_⟩
        · constructor
          · intro hh; simp at hh
          · intro hh; omega
        · constructor
          · intro hh; simp at hh
          · intro hh; rw [h2] at hh; exact absurd hh (by decide)
        · constructor
          · intro hh; simp at hh
          · intro hh; rw [h2] at hh; exact absurd hh (by decide)
        · constructor
          · intro hh; simp at hh
          · intro hh; exact absurd h2 hh.2.1
      · rw [if_neg h2]
        by_cases h3 : b.getD 64 0 &&& 0xF0 = 0x40
        · rw [if_pos h3]
          refine ⟨?_, ?_, ⟨fun _ => h3, fun _ => rfl⟩, ?_, ?_⟩
          · constructor
            · intro hh; simp at hh
            · intro hh; exact absurd hh h1
          · constructor
            · intro hh; simp at hh
            · intro hh; exact absurd hh h2
          · constructor
            · intro hh; simp at hh
            · intro hh; rw [h3] at hh; omega
          · constructor
            · intro hh; simp at hh
            · intro hh; exact absurd h3 hh.2.2.1
        · rw [if_neg h3]
          by_cases h4 : b.getD 64 0 &&& 0xF0 = 0x80
          · rw [if_pos h4]
            refine ⟨?_, ?_, ?_, ⟨fun _ => h4, fun _ => rfl⟩, ?_⟩
            · constructor
              · intro hh; simp at hh
              · intro hh; exact absurd hh h1
            · constructor
              · intro hh; simp at hh
              · intro hh; exact absurd hh h2
            · constructor
              · intro hh; simp at hh
              · intro hh; exact absurd hh h3
            · constructor
              · intro hh; simp at hh
              · intro hh; exact absurd h4 hh.2.2.2
          · rw [if_neg h4]
            refine ⟨?_, ?_, ?_, ?_, ⟨fun _ => ⟨h1, h2, h3, h4⟩, fun _ => rfl⟩⟩
            · constructor
              · intro hh; simp at hh
              · intro hh; exact absurd hh h1
            · constructor
              · intro hh; simp at hh
              · intro hh; exact absurd hh h2
            · constructor
              · intro hh; simp at hh
              · intro hh; exact absurd hh h3
            · constructor
              · intro hh; simp at hh
              · intro hh; exact absurd hh h4

/-- Witness for C8: a 65-byte payload with byte 64 `0xA5` parses as
LegacyData, and one with byte 64 `0x82` parses as MerkleData. -/
theorem c8_parse_variant_dispatch_witness :
    NewShredFromSerialized (List.replicate 64 0 ++ [0xA5]) =
        some (.legacyData (List.replicate 64 0 ++ [0xA5])) ∧
      NewShredFromSerialized (List.replicate 64 0 ++ [0x82]) =
        some (.merkleData (List.replicate 64 0 ++ [0x82])) :=
  ⟨((c8_parse_variant_dispatch (List.replicate 64 0 ++ [0xA5])).2
      (by decide)).2.1.mpr (by decide),
    (((c8_parse_variant_dispatch (List.replicate 64 0 ++ [0x82])).2
      (by decide)).2.2.2.1).mpr (by decide)⟩

/-! ## Claim C5 -/

/-- The element selected by `getLastD` belongs to the non-empty list. -/
theorem getLastD_mem (s0 : Shred) :
    ∀ rest : List Shred, rest.getLastD s0 ∈ s0 :: rest := by
  intro rest
  induction rest generalizing s0 with
  | nil => simp
  | cons a t ih =>
    rw [List.getLastD_cons]
    exact List.mem_cons_of_mem s0 (ih a)

/-- On a data shred the completeness test of `Deshred` is defined (its data
header is not nil, so no crash occurs). -/
theorem deshredLastFlag_isSome_of_isData (s : Shred) (h : s.isData = true) :
    (deshredLastFlag s).isSome = true := by
  cases s with
  | legacyCode b => exact absurd h (by simp [Shred.isData])
  | merkleCode b => exact absurd h (by simp [Shred.isData])
  | legacyData b =>
    unfold deshredLastFlag
    split
    · rfl
    · simp [Shred.dataHeaderOpt]
  | merkleData b =>
    unfold deshredLastFlag
    split
    · rfl
    · simp [Shred.dataHeaderOpt]

/-- When every shred has a valid payload slice, the concatenation loop
returns the in-order concatenation. -/
theorem dataConcatRes_ok_of_valid :
    ∀ shreds, dataValid shreds = true →
      dataConcatRes shreds = .ok (dataConcat shreds) := by
  intro shreds
  induction shreds with
  | nil => intro _; rfl
  | cons s t ih =>
    intro hv
    rw [dataValid, List.all_cons, Bool.and_eq_true] at hv
    obtain ⟨h1, h2⟩ := hv
    obtain ⟨d, hd⟩ := Option.isSome_iff_exists.mp h1
    unfold dataConcatRes dataConcat
    rw [hd, ih h2]
    simp [hd]

/-- When some shred has an invalid payload slice, the concatenation loop
fails with the `invalid data shred` error. -/
theorem dataConcatRes_fail_of_invalid :
    ∀ shreds, dataValid shreds = false →
      dataConcatRes shreds = .fail .invalidDataShred := by
  intro shreds
  induction shreds with
  | nil => intro hv; exact absurd hv (by simp [dataValid])
  | cons s t ih =>
    intro hv
    rw [dataValid, List.all_cons, Bool.and_eq_false_iff] at hv
    cases hv with
    | inl h1 =>
      have hd : s.data = none := Option.not_isSome_iff_eq_none.mp (by simp [h1])
      unfold dataConcatRes
      rw [hd]
    | inr h2 =>
      unfold dataConcatRes
      cases hd : s.data with
      | none => rfl
      | some d => rw [ih h2]

/-- Claim C5, amended: for a sequence of data shreds, `Deshred` succeeds
with the in-order concatenation of the payload slices exactly when the
sequence is non-empty, strictly contiguous, the last shred carries the
DataCompleteShred or LastShredInSlot flag, and every payload slice is
valid; a failure of the first three conditions gives `TooFewDataShreds`,
and an invalid payload slice (with the first three conditions holding)
gives the invalid-shred-data error. -/
theorem c5_deshred_contract (shreds : List Shred)
    (hdata : shreds.all Shred.isData = true) :
    ((shreds ≠ [] ∧ contiguousIndexes shreds = true ∧
        lastShredFlagged shreds = true ∧ dataValid shreds = true) →
      Deshred shreds = .ok (dataConcat shreds)) ∧
      (¬(shreds ≠ [] ∧ contiguousIndexes shreds = true ∧
          lastShredFlagged shreds = true) →
        Deshred shreds = .fail .tooFewDataShreds) ∧
      ((shreds ≠ [] ∧ contiguousIndexes shreds = true ∧
          lastShredFlagged shreds = true ∧ dataValid shreds = false) →
        Deshred shreds = .fail .invalidDataShred) := by
  cases shreds with
  | nil =>
    refine ⟨?_, fun _ => rfl, ?_⟩
    · rintro ⟨h, -⟩; exact absurd rfl h
    · rintro ⟨h, -⟩; exact absurd rfl h
  | cons s0 rest =>
    have hld : (rest.getLastD s0).isData = true :=
      List.all_eq_true.mp hdata _ (getLastD_mem s0 rest)
    obtain ⟨b, hb⟩ :=
      Option.isSome_iff_exists.mp (deshredLastFlag_isSome_of_isData _ hld)
    have hflag : lastShredFlagged (s0 :: rest) = b := by
      show (deshredLastFlag (rest.getLastD s0)).getD false = b
      rw [hb]
      rfl
    have hD : Deshred (s0 :: rest) = deshredCons s0 rest := rfl
    refine ⟨?_, ?_, ?_⟩
    · rintro ⟨-, hcontig, hfl, hvalid⟩
      have hb' : b = true := by rw [← hflag]; exact hfl
      subst hb'
      have hal : alignedFrom s0.commonHeader.index 0 (s0 :: rest) = true := hcontig
      rw [hD]
      unfold deshredCons
      rw [hb, hal]
      simp [dataConcatRes_ok_of_valid _ hvalid]
    · intro h
      by_cases hcontig : contiguousIndexes (s0 :: rest) = true
      · by_cases hfl : lastShredFlagged (s0 :: rest) = true
        · exact absurd ⟨List.cons_ne_nil s0 rest, hcontig, hfl⟩ h
        · have hb' : b = false := by
            cases b with
            | false => rfl
            | true => exact absurd hflag hfl
          subst hb'
          rw [hD]
          unfold deshredCons
          rw [hb]
          simp
      · have hal : alignedFrom s0.commonHeader.index 0 (s0 :: rest) = false := by
          revert hcontig
          show ¬(alignedFrom s0.commonHeader.index 0 (s0 :: rest) = true) →
            alignedFrom s0.commonHeader.index 0 (s0 :: rest) = false
          cases alignedFrom s0.commonHeader.index 0 (s0 :: rest) <;> simp
        rw [hD]
        unfold deshredCons
        rw [hb, hal]
        simp
    · rintro ⟨-, hcontig, hfl, hinvalid⟩
      have hb' : b = true := by rw [← hflag]; exact hfl
      subst hb'
      have hal : alignedFrom s0.commonHeader.index 0 (s0 :: rest) = true := hcontig
      rw [hD]
      unfold deshredCons
      rw [hb, hal]
      simp [dataConcatRes_fail_of_invalid _ hinvalid]

/-- A legacy data shred whose size field is 0 (invalid framing: below the
payload start), flagged DataCompleteShred. -/
def sizelessShred : Shred :=
  .legacyData
    (List.replicate 64 0 ++ [0xA5] ++ leBytesN 8 1 ++ leBytesN 4 0 ++
      leBytesN 2 0 ++ leBytesN 4 0 ++ leBytesN 2 0 ++ [0x40] ++ leBytesN 2 0)

/-- Counterexample to claim C5 as stated: the singleton sequence holding
`sizelessShred` is non-empty, contiguous, and its last shred carries the
DataCompleteShred flag — the three conditions of the claimed success
criterion — yet `Deshred` does not succeed: the invalid payload slice makes
it fail with the invalid-shred-data error. -/
theorem c5_deshred_contract_counterexample :
    [sizelessShred].all Shred.isData = true ∧ ([sizelessShred] : List Shred) ≠ [] ∧
      contiguousIndexes [sizelessShred] = true ∧
      lastShredFlagged [sizelessShred] = true ∧
      Deshred [sizelessShred] = .fail .invalidDataShred := by
  decide

/-- Three contiguous data shreds at indexes 5, 6, 7 with payloads
`abc`, `de`, `fg`; only the last carries DataCompleteShred. -/
def goodShreds : List Shred :=
  [.legacyData (mkDataShredBytes 10 5 0 [97, 98, 99]),
    .legacyData (mkDataShredBytes 10 6 0 [100, 101]),
    .legacyData (mkDataShredBytes 10 7 0x40 [102, 103])]

/-- Witness for C5 on the section 8 deshredding scenario: the three-shred
sequence deshreds to the concatenation `abcdefg`. -/
theorem c5_deshred_contract_witness :
    Deshred goodShreds = .ok (dataConcat goodShreds) ∧
      dataConcat goodShreds = [97, 98, 99, 100, 101, 102, 103] :=
  ⟨(c5_deshred_contract goodShreds (by decide)).1
      ⟨by decide, by decide, by decide, by decide⟩,
    by decide⟩

/-! ## Claim C6 -/

/-- On a sorted list, dropping the leading elements below `start` keeps
exactly the elements at or above `start`. -/
theorem dropWhile_lt_eq_filter (start : Nat) :
    ∀ l : List Nat, l.Sorted (· ≤ ·) →
      l.dropWhile (fun x => x < start) = l.filter (fun x => start ≤ x) := by
  intro l
  induction l with
  | nil => intro _; rfl
  | cons a t ih =>
    intro hs
    rw [List.sorted_cons] at hs
    obtain ⟨ha, ht⟩ := hs
    by_cases h : a < start
    · rw [List.dropWhile_cons_of_pos (by simpa using h),
        List.filter_cons_of_neg (by simp; omega)]
      exact ih ht
    · rw [List.dropWhile_cons_of_neg (by simpa using h),
        List.filter_cons_of_pos (by simp; omega)]
      congr 1
      refine (List.filter_eq_self.mpr ?_).symm
      intro x hx
      have := ha x hx
      simp
      omega

/-- On a sorted list, dropping from the back the trailing elements at or
above `stop` keeps exactly the elements below `stop`. -/
theorem dropWhile_ge_reverse_eq_filter (stop : Nat) :
    ∀ l : List Nat, l.Sorted (· ≤ ·) →
      (l.reverse.dropWhile (fun x => stop ≤ x)).reverse =
        l.filter (fun x => x < stop) := by
  intro l
  induction l using List.reverseRecOn with
  | nil => intro _; rfl
  | append_singleton t a ih =>
    intro hs
    have hts : t.Sorted (· ≤ ·) := hs.sublist (t.sublist_append_left [a])
    have hall : ∀ x ∈ t, x ≤ a := by
      have hs' : List.Pairwise (· ≤ ·) (t ++ [a]) := hs
      rw [List.pairwise_append] at hs'
      intro x hx
      exact hs'.2.2 x hx a (by simp)
    rw [List.reverse_append, List.reverse_singleton, List.singleton_append]
    by_cases h : stop ≤ a
    · rw [List.dropWhile_cons_of_pos (by simpa using h), ih hts,
        List.filter_append]
      have hfa : (List.filter (fun x => decide (x < stop)) [a]) = [] := by
        simp
        omega
      rw [hfa, List.append_nil]
    · rw [List.dropWhile_cons_of_neg (by simpa using h), List.reverse_cons,
        List.reverse_reverse, List.filter_append]
      have hfa : (List.filter (fun x => decide (x < stop)) [a]) = [a] := by
        simp
        omega
      rw [hfa]
      congr 1
      refine (List.filter_eq_self.mpr ?_).symm
      intro x hx
      have := hall x hx
      simp
      omega

/-- `sliceSortedByRange` on a sorted list keeps exactly the elements of
`[start, stop)`. -/
theorem sliceSortedByRange_eq_filter (l : List Nat) (hs : l.Sorted (· ≤ ·))
    (start stop : Nat) :
    sliceSortedByRange l start stop =
      l.filter (fun x => decide (start ≤ x) && decide (x < stop)) := by
  unfold sliceSortedByRange
  rw [dropWhile_lt_eq_filter start l hs]
  rw [dropWhile_ge_reverse_eq_filter stop _ (hs.filter _)]
  rw [List.filter_filter]
  exact List.filter_congr fun x _ => by rw [Bool.and_comm]

/-- The emission loop yields one range per index. -/
theorem completedRangesGo_length :
    ∀ (l : List Nat) (b : Nat), (completedRangesGo b l).length = l.length := by
  intro l
  induction l with
  | nil => intro b; rfl
  | cons x t ih => intro b; simp [completedRangesGo, ih]

/-- The `i`-th emitted range starts at `begin + i` (wrapping `uint32`
increments) and ends at the `i`-th trimmed index. -/
theorem completedRangesGo_getD :
    ∀ (l : List Nat) (b : Nat), b < U32MOD → ∀ i, i < l.length →
      (completedRangesGo b l).getD i ⟨0, 0⟩ = ⟨(b + i) % U32MOD, l.getD i 0⟩ := by
  intro l
  induction l with
  | nil => intro b hb i hi; simp at hi
  | cons x t ih =>
    intro b hb i hi
    cases i with
    | zero =>
      show (⟨b, x⟩ : CompletedRange) = ⟨(b + 0) % U32MOD, x⟩
      rw [Nat.add_zero, Nat.mod_eq_of_lt hb]
    | succ j =>
      show (completedRangesGo ((b + 1) % U32MOD) t).getD j ⟨0, 0⟩ =
        ⟨(b + (j + 1)) % U32MOD, t.getD j 0⟩
      rw [ih ((b + 1) % U32MOD) (Nat.mod_lt _ (by norm_num [U32MOD])) j
        (by simpa using hi)]
      have : ((b + 1) % U32MOD + j) % U32MOD = (b + (j + 1)) % U32MOD := by
        rw [Nat.mod_add_mod]
        congr 1
        omega
      rw [this]

/-- Claim C6: confirmed.  For a sorted index list the trimming keeps
exactly the entries in `[start_index, consumed)`; one range is emitted per
remaining index, the `i`-th being `(start_index + i, idx_i)` with the
`uint32` begin counter incremented by exactly one per range; the empty
trimmed list yields no ranges; and the concrete instance
`(start=3, idxs=[5,9,12], consumed=10)` yields `[(3,5),(4,9)]`. -/
theorem c6_completed_data_ranges (start : Nat) (idxs : List Nat)
    (consumed : Nat) (hsorted : idxs.Sorted (· ≤ ·)) (hstart : start < U32MOD) :
    sliceSortedByRange idxs start consumed =
        idxs.filter (fun x => decide (start ≤ x) && decide (x < consumed)) ∧
      (getCompletedDataRanges start idxs consumed).length =
        (sliceSortedByRange idxs start consumed).length ∧
      (∀ i, i < (sliceSortedByRange idxs start consumed).length →
        (getCompletedDataRanges start idxs consumed).getD i ⟨0, 0⟩ =
          ⟨(start + i) % U32MOD, (sliceSortedByRange idxs start consumed).getD i 0⟩) ∧
      (sliceSortedByRange idxs start consumed = [] →
        getCompletedDataRanges start idxs consumed = []) ∧
      getCompletedDataRanges 3 [5, 9, 12] 10 = [⟨3, 5⟩, ⟨4, 9⟩] := by
  refine ⟨sliceSortedByRange_eq_filter idxs hsorted start consumed,
    completedRangesGo_length _ _, ?_, ?_, by decide⟩
  · intro i hi
    exact completedRangesGo_getD _ start hstart i hi
  · intro h
    unfold getCompletedDataRanges
    rw [h]
    rfl

/-- Witness for C6 at the spec scenario `(3, [5,9,12], 10)`. -/
theorem c6_completed_data_ranges_witness :
    getCompletedDataRanges 3 [5, 9, 12] 10 = [⟨3, 5⟩, ⟨4, 9⟩] ∧
      sliceSortedByRange [5, 9, 12] 3 10 =
        [5, 9, 12].filter (fun x => decide (3 ≤ x) && decide (x < 10)) :=
  ⟨(c6_completed_data_ranges 3 [5, 9, 12] 10 (by decide) (by decide)).2.2.2.2,
    (c6_completed_data_ranges 3 [5, 9, 12] 10 (by decide) (by decide)).1⟩
